import Mathlib

/-!
# Formal model of the WebFishing save-file codec

A shallow embedding of `webfishing-save-converter.py`: the binary cursor
(`SaveFileReader` / `SaveFileWriter`), the variant decoder
(`WebFishingDeserializer`) and the variant encoder (`WebFishingSerializer`).

Conventions of the embedding:
* A byte buffer is a `List Nat`; every primitive interprets a stored unit
  through `% 256` (bytes are octets).  The reader is modelled by the list of
  bytes still remaining (the Python reader keeps an increasing offset into an
  immutable buffer, which is observationally the same thing: every primitive
  read only looks at the slice starting at the current offset).
* Python `float` objects are carried as their IEEE-754 binary64 bit pattern
  (a `Nat`); `struct.pack('<d', x)` / `struct.unpack('<d', ...)` move exactly
  those bits.  The 32-bit conversions performed by `struct.pack('<f', ...)` /
  `struct.unpack('<f', ...)` are kept abstract in a `FloatModel` parameter;
  no theorem below depends on their concrete values.
* Python `str` objects are carried as their UTF-8 code-unit sequence
  (a `List Nat`); `s.encode('utf-8')` is then the identity, and
  `bytes.decode('utf-8', errors='ignore')` is `decodeUtf8Ignore` below.
* `struct.error` raised by a primitive read is `DecErr.outOfBounds`;
  the two `RuntimeError`s of the deserializer are `DecErr.invalidHeader` and
  `DecErr.invalidKeyType`.  On the encoder side the `ValueError` of the
  final `else` branch is `EncErr.unsupportedShape`, a `ValueError` escaping
  `int(k, 16)` is `EncErr.badHexKey`, and range errors raised by
  `struct.pack` (`<i`, `<q`, `<I`, `<f`) are `EncErr.packError`.
-/

namespace WebFishing

/-- Code points of a Lean string literal; for the ASCII-only literals used
below this coincides with the string's UTF-8 bytes — a convenience for
writing the byte lists of concrete Python strings. -/
def asciiOf (s : String) : List Nat := s.data.map (fun c => c.toNat)

/-- Little-endian value of four octets, `struct.unpack('<I', ...)`. -/
def leVal4 (b0 b1 b2 b3 : Nat) : Nat :=
  b0 % 256 + 256 * (b1 % 256) + 65536 * (b2 % 256) + 16777216 * (b3 % 256)

/-- Little-endian value of eight octets, `struct.unpack('<Q', ...)`. -/
def leVal8 (b0 b1 b2 b3 b4 b5 b6 b7 : Nat) : Nat :=
  leVal4 b0 b1 b2 b3 + 4294967296 * leVal4 b4 b5 b6 b7

/-- The four little-endian bytes of `n` (the payload of
`struct.pack('<I', n)`, defined for every `n`; the pack itself range-checks
first, see `packU32`). -/
def u32le (n : Nat) : List Nat :=
  [n % 256, n / 256 % 256, n / 65536 % 256, n / 16777216 % 256]

/-- The eight little-endian bytes of `n`. -/
def u64le (n : Nat) : List Nat :=
  u32le (n % 4294967296) ++ u32le (n / 4294967296)

/-- Reinterpret an unsigned 32-bit value as two's-complement signed
(`struct.unpack('<i', ...)` of the same bytes). -/
def toSigned32 (u : Nat) : Int :=
  if u < 2147483648 then (u : Int) else (u : Int) - 4294967296

/-- Reinterpret an unsigned 64-bit value as two's-complement signed. -/
def toSigned64 (u : Nat) : Int :=
  if u < 9223372036854775808 then (u : Int) else (u : Int) - 18446744073709551616

/-- Decoder-side failure conditions. `outOfBounds` is the `struct.error`
raised when a primitive read gets fewer bytes than it needs; the other two
are the deserializer's `RuntimeError`s. -/
inductive DecErr : Type where
  | outOfBounds : DecErr
  | invalidHeader : DecErr
  | invalidKeyType : DecErr
  deriving DecidableEq

/-- `SaveFileReader.read_uint32`: consume four bytes, little-endian. -/
def readU32 : List Nat → Except DecErr (Nat × List Nat)
  | b0 :: b1 :: b2 :: b3 :: rest => .ok (leVal4 b0 b1 b2 b3, rest)
  | _ => .error .outOfBounds

/-- `SaveFileReader.read_int32`: consume four bytes, two's complement. -/
def readI32 : List Nat → Except DecErr (Int × List Nat)
  | b0 :: b1 :: b2 :: b3 :: rest => .ok (toSigned32 (leVal4 b0 b1 b2 b3), rest)
  | _ => .error .outOfBounds

/-- `SaveFileReader.read_int64`: consume eight bytes, two's complement. -/
def readI64 : List Nat → Except DecErr (Int × List Nat)
  | b0 :: b1 :: b2 :: b3 :: b4 :: b5 :: b6 :: b7 :: rest =>
      .ok (toSigned64 (leVal8 b0 b1 b2 b3 b4 b5 b6 b7), rest)
  | _ => .error .outOfBounds

/-- `SaveFileReader.read_float`: consume four bytes; the result is the raw
binary32 bit pattern (the widening to a Python double is applied by the
caller through the abstract `FloatModel`). -/
def readF32bits : List Nat → Except DecErr (Nat × List Nat) := readU32

/-- `SaveFileReader.read_double`: consume eight bytes; the result is the raw
binary64 bit pattern of the Python float. -/
def readF64bits : List Nat → Except DecErr (Nat × List Nat)
  | b0 :: b1 :: b2 :: b3 :: b4 :: b5 :: b6 :: b7 :: rest =>
      .ok (leVal8 b0 b1 b2 b3 b4 b5 b6 b7, rest)
  | _ => .error .outOfBounds

/-- `SaveFileReader.read_string(length)`: slice out `length` bytes (a Python
slice silently yields fewer bytes when fewer remain — this primitive never
fails) and decode them with `errors='ignore'` (`decodeUtf8Ignore` below). -/
def readStringRaw (length : Nat) (l : List Nat) : List Nat × List Nat :=
  (l.take length, l.drop length)

/-- `SaveFileReader.advance(count)`: move the cursor, no bounds check. -/
def advance (count : Nat) (l : List Nat) : List Nat := l.drop count

/-- `align_value(value, 4)` of the Python sources:
`((value + alignment - 1) // alignment) * alignment`. -/
def alignValue (value alignment : Nat) : Nat :=
  (value + alignment - 1) / alignment * alignment

theorem readU32_u32le (n : Nat) (rest : List Nat) :
    readU32 (u32le n ++ rest) = .ok (n % 4294967296, rest) := by
  simp only [u32le, List.cons_append, List.nil_append, readU32, leVal4, Except.ok.injEq,
    Prod.mk.injEq, and_true]
  omega

theorem readF64bits_u64le (n : Nat) (rest : List Nat) (h : n < 18446744073709551616) :
    readF64bits (u64le n ++ rest) = .ok (n, rest) := by
  simp only [u64le, u32le, List.cons_append, List.nil_append, readF64bits, leVal8, leVal4,
    Except.ok.injEq, Prod.mk.injEq, and_true]
  omega

theorem readI32_packed (v : Int) (rest : List Nat)
    (h1 : -2147483648 ≤ v) (h2 : v < 2147483648) :
    readI32 (u32le (v % 4294967296).toNat ++ rest) = .ok (v, rest) := by
  have hmod : ((v % 4294967296).toNat : Int) = v % 4294967296 :=
    Int.toNat_of_nonneg (Int.emod_nonneg v (by norm_num))
  simp only [u32le, List.cons_append, List.nil_append, readI32, leVal4, toSigned32,
    Except.ok.injEq, Prod.mk.injEq, and_true]
  split <;> omega

theorem readI64_packed (v : Int) (rest : List Nat)
    (h1 : -9223372036854775808 ≤ v) (h2 : v < 9223372036854775808) :
    readI64 (u64le (v % 18446744073709551616).toNat ++ rest) = .ok (v, rest) := by
  have hmod : ((v % 18446744073709551616).toNat : Int) = v % 18446744073709551616 :=
    Int.toNat_of_nonneg (Int.emod_nonneg v (by norm_num))
  simp only [u64le, u32le, List.cons_append, List.nil_append, readI64, leVal8, leVal4,
    toSigned64, Except.ok.injEq, Prod.mk.injEq, and_true]
  split <;> omega

/-! ## Lenient UTF-8 decoding (`bytes.decode('utf-8', errors='ignore')`)

The decoder scans for well-formed UTF-8 scalar sequences (the standard
table, surrogates and overlong forms excluded); a well-formed sequence is
copied verbatim, an ill-formed byte is dropped and scanning continues —
the `errors='ignore'` policy.  On well-formed input this is the identity,
which is the only fact the theorems below use. -/

/-- Byte length of the well-formed UTF-8 sequence starting at the head of
the list, if there is one. -/
def utf8SeqLen : List Nat → Option Nat
  | [] => Option.none
  | b :: rest =>
    if b < 128 then some 1
    else if 194 ≤ b && b ≤ 223 then
      match rest with
      | c1 :: _ => if 128 ≤ c1 && c1 ≤ 191 then some 2 else Option.none
      | [] => Option.none
    else if b = 224 then
      match rest with
      | c1 :: c2 :: _ =>
          if (160 ≤ c1 && c1 ≤ 191) && (128 ≤ c2 && c2 ≤ 191) then some 3 else Option.none
      | _ => Option.none
    else if (225 ≤ b && b ≤ 236) || b = 238 || b = 239 then
      match rest with
      | c1 :: c2 :: _ =>
          if (128 ≤ c1 && c1 ≤ 191) && (128 ≤ c2 && c2 ≤ 191) then some 3 else Option.none
      | _ => Option.none
    else if b = 237 then
      match rest with
      | c1 :: c2 :: _ =>
          if (128 ≤ c1 && c1 ≤ 159) && (128 ≤ c2 && c2 ≤ 191) then some 3 else Option.none
      | _ => Option.none
    else if b = 240 then
      match rest with
      | c1 :: c2 :: c3 :: _ =>
          if (144 ≤ c1 && c1 ≤ 191) && (128 ≤ c2 && c2 ≤ 191) && (128 ≤ c3 && c3 ≤ 191) then
            some 4 else Option.none
      | _ => Option.none
    else if 241 ≤ b && b ≤ 243 then
      match rest with
      | c1 :: c2 :: c3 :: _ =>
          if (128 ≤ c1 && c1 ≤ 191) && (128 ≤ c2 && c2 ≤ 191) && (128 ≤ c3 && c3 ≤ 191) then
            some 4 else Option.none
      | _ => Option.none
    else if b = 244 then
      match rest with
      | c1 :: c2 :: c3 :: _ =>
          if (128 ≤ c1 && c1 ≤ 143) && (128 ≤ c2 && c2 ≤ 191) && (128 ≤ c3 && c3 ≤ 191) then
            some 4 else Option.none
      | _ => Option.none
    else Option.none

/-- Worker for `decodeUtf8Ignore`; the fuel (first argument) only has to
dominate the number of scan steps, each of which consumes at least one
byte. -/
def decodeIgnoreAux : Nat → List Nat → List Nat
  | 0, _ => []
  | _ + 1, [] => []
  | fuel + 1, b :: rest =>
    match utf8SeqLen (b :: rest) with
    | some k => (b :: rest).take k ++ decodeIgnoreAux fuel ((b :: rest).drop k)
    | Option.none => decodeIgnoreAux fuel rest

/-- `bytes.decode('utf-8', errors='ignore')` on the octet list. -/
def decodeUtf8Ignore (l : List Nat) : List Nat := decodeIgnoreAux l.length l

/-! ## Python `int(s, 16)` and `f"0x{v:08X}"` -/

/-- Value of one hexadecimal digit character (`0-9`, `A-F`, `a-f`). -/
def hexDigitVal (c : Nat) : Option Nat :=
  if 48 ≤ c && c ≤ 57 then some (c - 48)
  else if 65 ≤ c && c ≤ 70 then some (c - 55)
  else if 97 ≤ c && c ≤ 102 then some (c - 87)
  else Option.none

/-- Continuation of a hex digit run: further digits, single underscores
allowed only between digits (Python numeric-literal grammar). -/
def hexDigitsCore : List Nat → Nat → Option Nat
  | [], acc => some acc
  | [95], _ => Option.none
  | 95 :: c :: rest, acc =>
    match hexDigitVal c with
    | some d => hexDigitsCore rest (16 * acc + d)
    | Option.none => Option.none
  | c :: rest, acc =>
    match hexDigitVal c with
    | some d => hexDigitsCore rest (16 * acc + d)
    | Option.none => Option.none

/-- A nonempty hex digit run starting with a digit. -/
def hexSeq : List Nat → Option Nat
  | [] => Option.none
  | c :: rest =>
    match hexDigitVal c with
    | some d => hexDigitsCore rest d
    | Option.none => Option.none

/-- After a `0x`/`0X` prefix one leading underscore is permitted
(`int("0x_1", 16) == 1`). -/
def afterHexPrefix : List Nat → Option Nat
  | 95 :: rest => hexSeq rest
  | l => hexSeq l

/-- The unsigned part of the base-16 literal: optional `0x`/`0X` prefix,
then digits. -/
def hexBody : List Nat → Option Nat
  | 48 :: 120 :: rest => afterHexPrefix rest
  | 48 :: 88 :: rest => afterHexPrefix rest
  | l => hexSeq l

/-- Characters `int()` strips from both ends (ASCII whitespace as accepted
by CPython's parser). -/
def isPySpace (c : Nat) : Bool := c = 32 || (9 ≤ c && c ≤ 13) || (28 ≤ c && c ≤ 31)

/-- Strip leading and trailing whitespace. -/
def stripPySpace (l : List Nat) : List Nat :=
  ((l.dropWhile isPySpace).reverse.dropWhile isPySpace).reverse

/-- Python `int(s, 16)` on the string's code units: `some` value, or
`Option.none` for the `ValueError` of an ill-formed literal. -/
def pyIntBase16 (s : List Nat) : Option Int :=
  match stripPySpace s with
  | 43 :: r => (hexBody r).map (fun n => (n : Int))
  | 45 :: r => (hexBody r).map (fun n => -(n : Int))
  | r => (hexBody r).map (fun n => (n : Int))

/-- Uppercase hex digit character of a value below 16. -/
def hexDigitUpper (d : Nat) : Nat := if d < 10 then 48 + d else 55 + d

/-- Minimal big-endian uppercase hex digits of `n` (empty for 0); the fuel
dominates the digit count. -/
def natHexUpperAux : Nat → Nat → List Nat
  | 0, _ => []
  | fuel + 1, n =>
    if n = 0 then [] else natHexUpperAux fuel (n / 16) ++ [hexDigitUpper (n % 16)]

/-- Uppercase hex digits of `n`, at least one digit. -/
def natHexUpper (n : Nat) : List Nat :=
  if n = 0 then [48] else natHexUpperAux n n

/-- Python `format(v, '08X')`: uppercase hex, zero-padded to total width 8;
for a negative value the sign is emitted first and counts toward the
width (`format(-1, '08X') == '-0000001'`).  No truncation ever occurs. -/
def pyFormat08X (v : Int) : List Nat :=
  if v < 0 then
    45 :: (List.replicate (7 - (natHexUpper (-v).toNat).length) 48 ++ natHexUpper (-v).toNat)
  else
    List.replicate (8 - (natHexUpper v.toNat).length) 48 ++ natHexUpper v.toNat

/-- `f"0x{key_val:08X}"` — the deserializer's re-expression of an integer
dictionary key. -/
def hexKeyString (v : Int) : List Nat := 48 :: 120 :: pyFormat08X v

/-- Minimal decimal digits of `n` (fuel-driven worker). -/
def natDecimalAux : Nat → Nat → List Nat
  | 0, _ => []
  | fuel + 1, n =>
    if n = 0 then [] else natDecimalAux fuel (n / 10) ++ [48 + n % 10]

/-- Decimal digit characters of `n`. -/
def natDecimal (n : Nat) : List Nat :=
  if n = 0 then [48] else natDecimalAux n n

/-- `f"Unsupported type {base_type}"` — the placeholder Text substituted for
an unrecognized base type. -/
def unsupportedMsg (baseType : Nat) : List Nat :=
  asciiOf "Unsupported type " ++ natDecimal baseType

/-! ## The value tree

The runtime values the codec consumes and produces: the shapes `json.load`
can deliver and `read_value` can build.  `float` carries the binary64 bit
pattern, `str` the UTF-8 code units.  `other` stands for every Python
object of any further type (the encoder's final `else` branch). -/

inductive PyValue : Type where
  | none : PyValue
  | bool (b : Bool) : PyValue
  | int (n : Int) : PyValue
  | float (bits : Nat) : PyValue
  | str (s : List Nat) : PyValue
  | list (xs : List PyValue) : PyValue
  | dict (entries : List (List Nat × PyValue)) : PyValue
  | other : PyValue

/-- Python `key in d` on the insertion-ordered entry list. -/
def containsKey (es : List (List Nat × PyValue)) (key : List Nat) : Bool :=
  es.any (fun p => decide (p.1 = key))

/-- Python `d[key]` (first — and in a genuine dict only — binding). -/
def pyLookup : List (List Nat × PyValue) → List Nat → Option PyValue
  | [], _ => Option.none
  | (k, v) :: tl, key => if k = key then some v else pyLookup tl key

/-- Python `d[key] = v`: replace in place when the key is present, else
append — insertion order is preserved, re-assignment keeps the original
position. -/
def dictInsert (es : List (List Nat × PyValue)) (key : List Nat) (v : PyValue) :
    List (List Nat × PyValue) :=
  if containsKey es key then
    es.map (fun p => if p.1 = key then (key, v) else p)
  else
    es ++ [(key, v)]

/-- The two 32-bit float conversions of `struct` are kept abstract: no
claim below depends on their concrete values.  `f32ToF64` is the exact
widening applied by `unpack('<f', ...)`; `f64ToF32` is `pack('<f', ...)`
on a Python float (`Option.none` = the `OverflowError` for a finite double
beyond binary32 range); `intToF32` is `pack('<f', ...)` on a Python int. -/
structure FloatModel : Type where
  f32ToF64 : Nat → Nat
  f64ToF32 : Nat → Option Nat
  intToF32 : Int → Option Nat

/-- A concrete instantiation used by witnesses; the abstract conversions
are never exercised on the inputs of any witness. -/
def FM0 : FloatModel := ⟨fun b => b, fun _ => Option.none, fun _ => Option.none⟩

/-! ## The deserializer (`WebFishingDeserializer`) -/

/-- The key coercion inside the `DICTIONARY` branch of `read_value`:
`isinstance(key_val, str)` keeps the string; `isinstance(key_val, int)`
re-expresses through `f"0x{key_val:08X}"` — and in Python `bool` is a
subclass of `int`, so a boolean key takes this branch too; every other
shape raises `RuntimeError` (InvalidKeyType). -/
def dictKeyOf : PyValue → Except DecErr (List Nat)
  | .str s => .ok s
  | .bool b => .ok (hexKeyString (if b then 1 else 0))
  | .int m => .ok (hexKeyString m)
  | _ => .error .invalidKeyType

/-- The `ARRAY` loop of `read_value`: `size` iterations of the given
element reader, results appended in order. -/
def readListLoop (rv : List Nat → Except DecErr (PyValue × List Nat)) :
    Nat → List PyValue → List Nat → Except DecErr (PyValue × List Nat)
  | 0, acc, l => .ok (.list acc, l)
  | n + 1, acc, l =>
    match rv l with
    | .error e => .error e
    | .ok (v, l1) => readListLoop rv n (acc ++ [v]) l1

/-- The `DICTIONARY` loop of `read_value`: `size` iterations of key
(coerced through `dictKeyOf`) then value, bound through `dictInsert`. -/
def readDictLoop (rv : List Nat → Except DecErr (PyValue × List Nat)) :
    Nat → List (List Nat × PyValue) → List Nat → Except DecErr (PyValue × List Nat)
  | 0, acc, l => .ok (.dict acc, l)
  | n + 1, acc, l =>
    match rv l with
    | .error e => .error e
    | .ok (kv, l1) =>
      match dictKeyOf kv with
      | .error e => .error e
      | .ok key =>
        match rv l1 with
        | .error e => .error e
        | .ok (v, l2) => readDictLoop rv n (dictInsert acc key v) l2

/-- One dispatch step of `read_value`, parameterized by the reader used
for nested values. -/
def readValueGo (FM : FloatModel) (rv : List Nat → Except DecErr (PyValue × List Nat))
    (l : List Nat) : Except DecErr (PyValue × List Nat) :=
  match readU32 l with
  | .error e => .error e
  | .ok (typeVal, l) =>
    let baseType := typeVal % 65536
    let flag := typeVal / 65536
    if baseType = 0 then
      .ok (.none, l)
    else if baseType = 1 then
      match readU32 l with
      | .error e => .error e
      | .ok (x, l) => .ok (.bool (decide (x = 1)), l)
    else if baseType = 2 then
      if flag = 0 then
        match readI32 l with
        | .error e => .error e
        | .ok (n, l) => .ok (.int n, l)
      else
        match readI64 l with
        | .error e => .error e
        | .ok (n, l) => .ok (.int n, l)
    else if baseType = 3 then
      if flag = 0 then
        match readF32bits l with
        | .error e => .error e
        | .ok (bits, l) => .ok (.float (FM.f32ToF64 bits), l)
      else
        match readF64bits l with
        | .error e => .error e
        | .ok (bits, l) => .ok (.float bits, l)
    else if baseType = 4 then
      match readU32 l with
      | .error e => .error e
      | .ok (length, l) =>
        let paddedLength := alignValue length 4
        let rawRest := readStringRaw length l
        .ok (.str (decodeUtf8Ignore rawRest.1), advance (paddedLength - length) rawRest.2)
    else if baseType = 5 then
      match readF32bits l with
      | .error e => .error e
      | .ok (xbits, l) =>
        match readF32bits l with
        | .error e => .error e
        | .ok (ybits, l) =>
          .ok (.dict [(asciiOf "x", .float (FM.f32ToF64 xbits)),
                      (asciiOf "y", .float (FM.f32ToF64 ybits))], l)
    else if baseType = 18 then
      match readU32 l with
      | .error e => .error e
      | .ok (size, l) => readDictLoop rv size [] l
    else if baseType = 19 then
      match readU32 l with
      | .error e => .error e
      | .ok (size, l) => readListLoop rv size [] l
    else
      .ok (.str (unsupportedMsg baseType), l)

/-- `read_value`, with a fuel bound on the nesting depth (the Python
original recurses on the call stack; every level consumes at least four
bytes before descending, so `decode` below supplies a fuel the input
length can never exhaust). -/
def readValue (FM : FloatModel) : Nat → List Nat → Except DecErr (PyValue × List Nat)
  | 0 => fun _ => .error .outOfBounds
  | fuel + 1 => readValueGo FM (readValue FM fuel)

/-- `parse_save_file` on an in-memory buffer: the constructor reads the
`u32` header and rejects a declared size below 4 (`InvalidHeader`), then
`read_value` runs once; trailing bytes are ignored. -/
def decode (FM : FloatModel) (buffer : List Nat) : Except DecErr PyValue :=
  match readU32 buffer with
  | .error e => .error e
  | .ok (size, rest) =>
    if size < 4 then .error .invalidHeader
    else
      match readValue FM (rest.length + 1) rest with
      | .error e => .error e
      | .ok (v, _) => .ok v

/-! ## The serializer (`WebFishingSerializer`) -/

/-- Encoder-side failure conditions: the final `else`'s
`ValueError("Unsupported type ...")`; a `ValueError` escaping
`int(k, 16)`; range errors from `struct.pack`; and the (unreachable,
guarded) `KeyError` of a missing `"x"`/`"y"` lookup. -/
inductive EncErr : Type where
  | unsupportedShape : EncErr
  | badHexKey : EncErr
  | packError : EncErr
  | keyError : EncErr
  deriving DecidableEq

/-- `struct.pack('<I', n)`: range-checks, then the four LE bytes. -/
def packU32 (n : Nat) : Except EncErr (List Nat) :=
  if n < 4294967296 then .ok (u32le n) else .error .packError

/-- `struct.pack('<i', v)`. -/
def packI32 (v : Int) : Except EncErr (List Nat) :=
  if -2147483648 ≤ v ∧ v ≤ 2147483647 then .ok (u32le (v % 4294967296).toNat)
  else .error .packError

/-- `struct.pack('<q', v)`. -/
def packI64 (v : Int) : Except EncErr (List Nat) :=
  if -9223372036854775808 ≤ v ∧ v ≤ 9223372036854775807 then
    .ok (u64le (v % 18446744073709551616).toNat)
  else .error .packError

/-- `SaveFileWriter.write_string`: `u32` byte length, the UTF-8 bytes,
then `(4 - L % 4) % 4` zero bytes of padding. -/
def writeStringPayload (s : List Nat) : Except EncErr (List Nat) :=
  match packU32 s.length with
  | .error e => .error e
  | .ok lenB => .ok (lenB ++ s ++ List.replicate ((4 - s.length % 4) % 4) 0)

/-- `struct.pack('<f', v)` on the Python object found under an `"x"`/`"y"`
key: floats and ints go through the abstract conversions; a bool converts
exactly (`1.0f` is `0x3F800000`); anything else raises. -/
def packAsF32 (FM : FloatModel) : PyValue → Except EncErr (List Nat)
  | .float bits =>
    match FM.f64ToF32 bits with
    | some b => .ok (u32le b)
    | Option.none => .error .packError
  | .int n =>
    match FM.intToF32 n with
    | some b => .ok (u32le b)
    | Option.none => .error .packError
  | .bool b => .ok (u32le (if b then 1065353216 else 0))
  | _ => .error .packError

/-- The `int` branch of `write_value` (also reached for an integer parsed
from an `"0x..."` dictionary key): the narrow form `INT` + `i32` exactly
when `-2**31 <= value <= 2**31-1`, else the wide form `INT | 1<<16` +
`i64`. -/
def writeIntValue (n : Int) : Except EncErr (List Nat) :=
  if -2147483648 ≤ n ∧ n ≤ 2147483647 then
    match packI32 n with
    | .error e => .error e
    | .ok bs => .ok (u32le 2 ++ bs)
  else
    match packI64 n with
    | .error e => .error e
    | .ok bs => .ok (u32le 65538 ++ bs)

/-- The `str` branch of `write_value` (also reached for a non-`"0x..."`
dictionary key): tag `STRING`, then the length-prefixed padded payload. -/
def writeStrValue (s : List Nat) : Except EncErr (List Nat) :=
  match writeStringPayload s with
  | .error e => .error e
  | .ok bs => .ok (u32le 4 ++ bs)

mutual

/-- `WebFishingSerializer.write_value`.  The branch order mirrors the
source: `None`, `bool` (before `int` — Python checks it first), `int`
(narrow iff `-2**31 <= value <= 2**31-1`), `float` (always the wide
form, tag `REAL | 1<<16`), `str`, `dict` (the two-key `"x"`/`"y"` shape
collapses to `VECTOR2`; otherwise keys starting with `"0x"` are written as
`int(k, 16)`, all other keys as strings), `list`, and the `ValueError`
fallback. -/
def writeValue (FM : FloatModel) : PyValue → Except EncErr (List Nat)
  | .none => .ok (u32le 0)
  | .bool b => .ok (u32le 1 ++ u32le (if b then 1 else 0))
  | .int n => writeIntValue n
  | .float bits => .ok (u32le 65539 ++ u64le bits)
  | .str s => writeStrValue s
  | .dict es =>
    if es.length = 2 ∧ containsKey es (asciiOf "x") = true ∧ containsKey es (asciiOf "y") = true then
      match pyLookup es (asciiOf "x") with
      | Option.none => .error .keyError
      | some vx =>
        match packAsF32 FM vx with
        | .error e => .error e
        | .ok xb =>
          match pyLookup es (asciiOf "y") with
          | Option.none => .error .keyError
          | some vy =>
            match packAsF32 FM vy with
            | .error e => .error e
            | .ok yb => .ok (u32le 5 ++ xb ++ yb)
    else
      match packU32 es.length with
      | .error e => .error e
      | .ok lenB =>
        match writeDict FM es with
        | .error e => .error e
        | .ok body => .ok (u32le 18 ++ lenB ++ body)
  | .list xs =>
    match packU32 xs.length with
    | .error e => .error e
    | .ok lenB =>
      match writeList FM xs with
      | .error e => .error e
      | .ok body => .ok (u32le 19 ++ lenB ++ body)
  | .other => .error .unsupportedShape

/-- The element loop of the `list` branch. -/
def writeList (FM : FloatModel) : List PyValue → Except EncErr (List Nat)
  | [] => .ok []
  | v :: tl =>
    match writeValue FM v with
    | .error e => .error e
    | .ok b =>
      match writeList FM tl with
      | .error e => .error e
      | .ok r => .ok (b ++ r)

/-- The entry loop of the general `dict` branch: for each entry, the key —
as `int(k, 16)` when `k.startswith("0x")`, else as a string — then the
value. -/
def writeDict (FM : FloatModel) : List (List Nat × PyValue) → Except EncErr (List Nat)
  | [] => .ok []
  | (k, v) :: tl =>
    match
      (if k.take 2 = [48, 120] then
        match pyIntBase16 k with
        | some m => writeIntValue m
        | Option.none => .error .badHexKey
      else writeStrValue k) with
    | .error e => .error e
    | .ok kb =>
      match writeValue FM v with
      | .error e => .error e
      | .ok vb =>
        match writeDict FM tl with
        | .error e => .error e
        | .ok r => .ok (kb ++ vb ++ r)

end

/-- `WebFishingSerializer.serialize`: the value's bytes, prefixed by a
`u32` header holding the total length including the header itself. -/
def serialize (FM : FloatModel) (data : PyValue) : Except EncErr (List Nat) :=
  match writeValue FM data with
  | .error e => .error e
  | .ok body =>
    match packU32 (body.length + 4) with
    | .error e => .error e
    | .ok hdr => .ok (hdr ++ body)

/-- Encode, then decode: the round-trip composition (`Option.none` when
either direction fails). -/
def roundTrip (FM : FloatModel) (v : PyValue) : Option PyValue :=
  match serialize FM v with
  | .error _ => Option.none
  | .ok buf =>
    match decode FM buf with
    | .error _ => Option.none
    | .ok w => some w

/-! ## Value classes quantified over by the testable properties

These predicates are spec-side: they carve out the families of values a
claim ranges over.  `strOk` says the byte list really is the UTF-8
encoding of a Python `str` within the `u32` length field's range;
`hexKeyOk` says a `"0x..."` key is a fixed point of the decoder's key
coercion (parse with `int(k, 16)`, re-express with `f"0x{v:08X}"`). -/

/-- The byte list is a genuine Python-string encoding the codec can carry:
a fixed point of lenient UTF-8 decoding, with a length expressible in the
`u32` length prefix. -/
def strOk (s : List Nat) : Bool :=
  decide (decodeUtf8Ignore s = s) && decide (s.length < 4294967296)

/-- A mapping key, when it starts with `"0x"`, parses under `int(k, 16)`
to an `i64`-range value whose canonical re-expression `f"0x{v:08X}"` is
the key itself. -/
def hexKeyOk (k : List Nat) : Bool :=
  if k.take 2 = [48, 120] then
    match pyIntBase16 k with
    | some m =>
        decide (0 ≤ m) && decide (m ≤ 9223372036854775807) && decide (hexKeyString m = k)
    | Option.none => false
  else true

/-- A mapping key, when it starts with `"0x"`, at least parses under
`int(k, 16)` to an `i64`-range value (the weaker condition encodability
needs). -/
def hexKeyParses (k : List Nat) : Bool :=
  if k.take 2 = [48, 120] then
    match pyIntBase16 k with
    | some m => decide (-9223372036854775808 ≤ m) && decide (m ≤ 9223372036854775807)
    | Option.none => false
  else true

/-- Membership of a key in a key list. -/
def keyMem (k : List Nat) : List (List Nat) → Bool
  | [] => false
  | k2 :: tl => decide (k = k2) || keyMem k tl

/-- No key occurs twice (every genuine Python dict satisfies this). -/
def keysNodupB : List (List Nat) → Bool
  | [] => true
  | k :: tl => !keyMem k tl && keysNodupB tl

mutual

/-- The value family of the round-trip property: built only from Null,
Boolean, Integer (64-bit), Real, Text, Sequence and Mapping without the
ambiguous two-key `"x"`/`"y"` shape, with representable lengths and
genuine string payloads.  With `strict := true` mapping keys starting in
`"0x"` are additionally required to be canonical (`hexKeyOk`); with
`strict := false` they are unconstrained — the family named by the claim
as stated. -/
def valueOk (strict : Bool) : PyValue → Bool
  | .none => true
  | .bool _ => true
  | .int n => decide (-9223372036854775808 ≤ n) && decide (n ≤ 9223372036854775807)
  | .float bits => decide (bits < 18446744073709551616)
  | .str s => strOk s
  | .list xs => decide (xs.length < 4294967296) && valueOkL strict xs
  | .dict es =>
      decide (es.length < 4294967296) &&
      !(decide (es.length = 2) && (containsKey es (asciiOf "x") &&
        containsKey es (asciiOf "y"))) &&
      keysNodupB (es.map Prod.fst) &&
      es.all (fun p => strOk p.1) &&
      (!strict || es.all (fun p => hexKeyOk p.1)) &&
      valueOkD strict es
  | .other => false

def valueOkL (strict : Bool) : List PyValue → Bool
  | [] => true
  | v :: tl => valueOk strict v && valueOkL strict tl

def valueOkD (strict : Bool) : List (List Nat × PyValue) → Bool
  | [] => true
  | (_, v) :: tl => valueOk strict v && valueOkD strict tl

end

/-- The claim's value family, verbatim: supported variants, no ambiguous
`"x"`/`"y"` mapping. -/
def claimValue (v : PyValue) : Bool := valueOk false v

/-- The amended family: additionally every `"0x..."` mapping key is
canonical. -/
def goodValue (v : PyValue) : Bool := valueOk true v

mutual

/-- The value family on which the encoder succeeds: supported variants,
`i64`-range integers, representable lengths, no ambiguous `"x"`/`"y"`
shape, and every `"0x..."` mapping key parseable into `i64` range. -/
def encOk : PyValue → Bool
  | .none => true
  | .bool _ => true
  | .int n => decide (-9223372036854775808 ≤ n) && decide (n ≤ 9223372036854775807)
  | .float _ => true
  | .str s => decide (s.length < 4294967296)
  | .list xs => decide (xs.length < 4294967296) && encOkL xs
  | .dict es =>
      decide (es.length < 4294967296) &&
      !(decide (es.length = 2) && (containsKey es (asciiOf "x") &&
        containsKey es (asciiOf "y"))) &&
      es.all (fun p => hexKeyParses p.1 && decide (p.1.length < 4294967296)) &&
      encOkD es
  | .other => false

def encOkL : List PyValue → Bool
  | [] => true
  | v :: tl => encOk v && encOkL tl

def encOkD : List (List Nat × PyValue) → Bool
  | [] => true
  | (_, v) :: tl => encOk v && encOkD tl

end

mutual

/-- Nesting depth of a value: an upper bound on the reader fuel the
decoder needs to rebuild it. -/
def needFuel : PyValue → Nat
  | .list xs => 1 + needFuelL xs
  | .dict es => 1 + needFuelD es
  | _ => 1

def needFuelL : List PyValue → Nat
  | [] => 0
  | v :: tl => max (needFuel v) (needFuelL tl)

def needFuelD : List (List Nat × PyValue) → Nat
  | [] => 0
  | (_, v) :: tl => max (needFuel v) (needFuelD tl)

end

/-- The whole encoding (body plus four header bytes) fits the `u32`
header field — the condition under which `serialize`'s final
`write_uint32` succeeds. -/
def encFits (FM : FloatModel) (v : PyValue) : Bool :=
  match writeValue FM v with
  | .ok bs => decide (bs.length + 4 < 4294967296)
  | .error _ => true

theorem needFuel_pos (v : PyValue) : 1 ≤ needFuel v := by
  cases v <;> simp [needFuel]

theorem dictInsert_fresh (acc : List (List Nat × PyValue)) (k : List Nat) (v : PyValue)
    (h : containsKey acc k = false) : dictInsert acc k v = acc ++ [(k, v)] := by
  simp [dictInsert, h]

theorem containsKey_append_single (acc : List (List Nat × PyValue)) (k q : List Nat)
    (v : PyValue) :
    containsKey (acc ++ [(k, v)]) q = (containsKey acc q || decide (k = q)) := by
  simp [containsKey]

/-! ## Wire-shape lemmas: what each encoder branch emits and how the
decoder consumes exactly those bytes. -/

theorem readValue_succ (FM : FloatModel) (f : Nat) (l : List Nat) :
    readValue FM (f + 1) l = readValueGo FM (readValue FM f) l := rfl

theorem writeIntValue_narrow (n : Int) (h1 : -2147483648 ≤ n) (h2 : n ≤ 2147483647) :
    writeIntValue n = .ok (u32le 2 ++ u32le (n % 4294967296).toNat) := by
  simp [writeIntValue, packI32, h1, h2]

theorem writeIntValue_wide (n : Int) (hout : ¬(-2147483648 ≤ n ∧ n ≤ 2147483647))
    (h1 : -9223372036854775808 ≤ n) (h2 : n ≤ 9223372036854775807) :
    writeIntValue n = .ok (u32le 65538 ++ u64le (n % 18446744073709551616).toNat) := by
  simp only [writeIntValue, if_neg hout, packI64, if_pos (And.intro h1 h2)]

theorem writeStrValue_ok (s : List Nat) (hlen : s.length < 4294967296) :
    writeStrValue s =
      .ok (u32le 4 ++ (u32le s.length ++ s ++ List.replicate ((4 - s.length % 4) % 4) 0)) := by
  simp [writeStrValue, writeStringPayload, packU32, hlen]

theorem readValue_tagNil (FM : FloatModel) (f : Nat) (rest : List Nat) :
    readValue FM (f + 1) (u32le 0 ++ rest) = .ok (.none, rest) := rfl

theorem readValue_tagBool (FM : FloatModel) (f : Nat) (b : Bool) (rest : List Nat) :
    readValue FM (f + 1) ((u32le 1 ++ u32le (if b then 1 else 0)) ++ rest) =
      .ok (.bool b, rest) := by
  cases b <;> rfl

theorem readValue_tagIntNarrow (FM : FloatModel) (f : Nat) (v : Int) (rest : List Nat)
    (h1 : -2147483648 ≤ v) (h2 : v ≤ 2147483647) :
    readValue FM (f + 1) ((u32le 2 ++ u32le (v % 4294967296).toNat) ++ rest) =
      .ok (.int v, rest) := by
  have hr := readI32_packed v rest h1 (by omega)
  rw [List.append_assoc, readValue_succ]
  unfold readValueGo
  rw [readU32_u32le]
  norm_num
  rw [hr]

theorem readValue_tagIntWide (FM : FloatModel) (f : Nat) (v : Int) (rest : List Nat)
    (h1 : -9223372036854775808 ≤ v) (h2 : v ≤ 9223372036854775807) :
    readValue FM (f + 1) ((u32le 65538 ++ u64le (v % 18446744073709551616).toNat) ++ rest) =
      .ok (.int v, rest) := by
  have hr := readI64_packed v rest h1 (by omega)
  rw [List.append_assoc, readValue_succ]
  unfold readValueGo
  rw [readU32_u32le]
  norm_num
  rw [hr]

theorem readValue_tagFloat (FM : FloatModel) (f : Nat) (bits : Nat) (rest : List Nat)
    (h : bits < 18446744073709551616) :
    readValue FM (f + 1) ((u32le 65539 ++ u64le bits) ++ rest) = .ok (.float bits, rest) := by
  have hr := readF64bits_u64le bits rest h
  rw [List.append_assoc, readValue_succ]
  unfold readValueGo
  rw [readU32_u32le]
  norm_num
  rw [hr]

theorem readValue_tagStr (FM : FloatModel) (f : Nat) (s rest : List Nat)
    (hfix : decodeUtf8Ignore s = s) (hlen : s.length < 4294967296) :
    readValue FM (f + 1)
        ((u32le 4 ++ (u32le s.length ++ s ++ List.replicate ((4 - s.length % 4) % 4) 0)) ++ rest) =
      .ok (.str s, rest) := by
  rw [readValue_succ]
  unfold readValueGo
  simp only [List.append_assoc]
  rw [readU32_u32le]
  norm_num
  rw [readU32_u32le]
  norm_num [Nat.mod_eq_of_lt hlen]
  unfold readStringRaw advance
  rw [List.take_left' rfl, List.drop_left' rfl]
  have hpad : alignValue s.length 4 - s.length = (4 - s.length % 4) % 4 := by
    unfold alignValue; omega
  rw [hpad, List.drop_left' (by simp)]
  exact ⟨hfix, rfl⟩

theorem readValue_tagDict (FM : FloatModel) (f : Nat) (n : Nat) (l : List Nat)
    (hn : n < 4294967296) :
    readValue FM (f + 1) ((u32le 18 ++ u32le n) ++ l) =
      readDictLoop (readValue FM f) n [] l := by
  rw [List.append_assoc, readValue_succ]
  unfold readValueGo
  rw [readU32_u32le]
  norm_num
  rw [readU32_u32le]
  norm_num [Nat.mod_eq_of_lt hn]

theorem readValue_tagList (FM : FloatModel) (f : Nat) (n : Nat) (l : List Nat)
    (hn : n < 4294967296) :
    readValue FM (f + 1) ((u32le 19 ++ u32le n) ++ l) =
      readListLoop (readValue FM f) n [] l := by
  rw [List.append_assoc, readValue_succ]
  unfold readValueGo
  rw [readU32_u32le]
  norm_num
  rw [readU32_u32le]
  norm_num [Nat.mod_eq_of_lt hn]

theorem length_u32le (n : Nat) : (u32le n).length = 4 := rfl

theorem length_u64le (n : Nat) : (u64le n).length = 8 := rfl

theorem keyMem_false (k : List Nat) :
    ∀ ks, keyMem k ks = false → ∀ k2 ∈ ks, ¬(k = k2) := by
  intro ks
  induction ks with
  | nil => intro _ k2 hk2; cases hk2
  | cons a tl ihtl =>
    intro hmem k2 hk2
    simp only [keyMem, Bool.or_eq_false_iff, decide_eq_false_iff_not] at hmem
    cases hk2 with
    | head => exact hmem.1
    | tail _ h => exact ihtl hmem.2 k2 h

/-- Writing one general-case mapping key and reading it back: the wire key
value `kv` the decoder sees re-coerces (through `dictKeyOf`) to exactly
the original key string. -/
theorem key_write_read (FM : FloatModel) (k : List Nat)
    (hs : strOk k = true) (hh : hexKeyOk k = true) :
    ∃ kb kv,
      (if k.take 2 = [48, 120] then
        match pyIntBase16 k with
        | some m => writeIntValue m
        | Option.none => .error .badHexKey
      else writeStrValue k) = .ok kb ∧
      4 ≤ kb.length ∧ dictKeyOf kv = .ok k ∧
      ∀ f rest, readValue FM (f + 1) (kb ++ rest) = .ok (kv, rest) := by
  simp only [strOk, Bool.and_eq_true, decide_eq_true_eq] at hs
  by_cases hpre : k.take 2 = [48, 120]
  · rw [hexKeyOk, if_pos hpre] at hh
    cases hparse : pyIntBase16 k with
    | none => rw [hparse] at hh; exact absurd hh (by simp)
    | some m =>
      rw [hparse] at hh
      simp only [Bool.and_eq_true, decide_eq_true_eq] at hh
      obtain ⟨⟨hm0, hmmax⟩, hcanon⟩ := hh
      by_cases hnarrow : -2147483648 ≤ m ∧ m ≤ 2147483647
      · refine ⟨u32le 2 ++ u32le (m % 4294967296).toNat, .int m, ?_, ?_, ?_, ?_⟩
        · simp only [if_pos hpre, hparse]
          exact writeIntValue_narrow m hnarrow.1 hnarrow.2
        · simp [u32le]
        · show dictKeyOf (.int m) = .ok k
          simp [dictKeyOf, hcanon]
        · intro f rest
          exact readValue_tagIntNarrow FM f m rest hnarrow.1 hnarrow.2
      · refine ⟨u32le 65538 ++ u64le (m % 18446744073709551616).toNat, .int m, ?_, ?_, ?_, ?_⟩
        · simp only [if_pos hpre, hparse]
          exact writeIntValue_wide m hnarrow (by omega) hmmax
        · simp [u32le]
        · show dictKeyOf (.int m) = .ok k
          simp [dictKeyOf, hcanon]
        · intro f rest
          exact readValue_tagIntWide FM f m rest (by omega) hmmax
  · refine ⟨u32le 4 ++ (u32le k.length ++ k ++ List.replicate ((4 - k.length % 4) % 4) 0),
      .str k, ?_, ?_, ?_, ?_⟩
    · rw [if_neg hpre]
      exact writeStrValue_ok k hs.2
    · simp [u32le]
    · rfl
    · intro f rest
      exact readValue_tagStr FM f k rest hs.1 hs.2

/-- Core round-trip induction on the nesting depth: on a `goodValue` value
the encoder succeeds, the body is long enough to dominate the fuel the
decoder needs, and the decoder reads the body back exactly, leaving any
trailing bytes untouched. -/
theorem write_read_main (FM : FloatModel) :
    ∀ d v, needFuel v ≤ d → goodValue v = true →
      ∃ bs, writeValue FM v = .ok bs ∧ 4 * needFuel v ≤ bs.length ∧
        ∀ fuel rest, needFuel v ≤ fuel → readValue FM fuel (bs ++ rest) = .ok (v, rest) := by
  intro d
  induction d with
  | zero =>
    intro v h _
    exact absurd h (by have := needFuel_pos v; omega)
  | succ d ih =>
    have listAux : ∀ xs, needFuelL xs ≤ d → valueOkL true xs = true →
        ∃ body, writeList FM xs = .ok body ∧ 4 * needFuelL xs ≤ body.length + 4 ∧
          ∀ f rest acc, needFuelL xs ≤ f →
            readListLoop (readValue FM f) xs.length acc (body ++ rest) =
              .ok (.list (acc ++ xs), rest) := by
      intro xs
      induction xs with
      | nil =>
        intro _ _
        exact ⟨[], rfl, by simp [needFuelL], by intro f rest acc _; simp [readListLoop]⟩
      | cons v tl ihtl =>
        intro hfl hok
        rw [needFuelL, Nat.max_le] at hfl
        simp only [valueOkL, Bool.and_eq_true] at hok
        obtain ⟨bv, hbv, hlenv, hreadv⟩ := ih v hfl.1 hok.1
        obtain ⟨btl, hbtl, hlentl, hreadtl⟩ := ihtl hfl.2 hok.2
        refine ⟨bv ++ btl, ?_, ?_, ?_⟩
        · simp only [writeList, hbv, hbtl]
        · rw [needFuelL]
          simp only [List.length_append]
          omega
        · intro f rest acc hf2
          rw [needFuelL, Nat.max_le] at hf2
          simp only [List.length_cons, List.append_assoc]
          simp only [readListLoop, hreadv f (btl ++ rest) hf2.1,
            hreadtl f rest (acc ++ [v]) hf2.2]
          simp
    have dictAux : ∀ es, needFuelD es ≤ d → valueOkD true es = true →
        es.all (fun p => strOk p.1) = true → es.all (fun p => hexKeyOk p.1) = true →
        keysNodupB (es.map Prod.fst) = true →
        ∃ body, writeDict FM es = .ok body ∧ 4 * needFuelD es ≤ body.length + 4 ∧
          ∀ f rest acc, needFuelD es ≤ f →
            (∀ p ∈ es, containsKey acc p.1 = false) →
            readDictLoop (readValue FM f) es.length acc (body ++ rest) =
              .ok (.dict (acc ++ es), rest) := by
      intro es
      induction es with
      | nil =>
        intro _ _ _ _ _
        exact ⟨[], rfl, by simp [needFuelD], by intro f rest acc _ _; simp [readDictLoop]⟩
      | cons p tl ihtl =>
        obtain ⟨k, v⟩ := p
        intro hfd hok hstr hhex hnodup
        rw [needFuelD, Nat.max_le] at hfd
        simp only [valueOkD, Bool.and_eq_true] at hok
        simp only [List.all_cons, Bool.and_eq_true] at hstr hhex
        simp only [List.map_cons, keysNodupB, Bool.and_eq_true, Bool.not_eq_true'] at hnodup
        obtain ⟨kb, kv, hkb, hkblen, hkcoerce, hkread⟩ := key_write_read FM k hstr.1 hhex.1
        obtain ⟨bv, hbv, hlenv, hreadv⟩ := ih v hfd.1 hok.1
        obtain ⟨btl, hbtl, hlentl, hreadtl⟩ := ihtl hfd.2 hok.2 hstr.2 hhex.2 hnodup.2
        refine ⟨kb ++ bv ++ btl, ?_, ?_, ?_⟩
        · simp only [writeDict, hkb, hbv, hbtl]
        · rw [needFuelD]
          simp only [List.length_append]
          have := needFuel_pos v
          omega
        · intro f rest acc hf2 hfresh
          rw [needFuelD, Nat.max_le] at hf2
          obtain ⟨f1, rfl⟩ : ∃ f1, f = f1 + 1 := by
            have := needFuel_pos v
            exact ⟨f - 1, by omega⟩
          simp only [List.length_cons, List.append_assoc]
          have hkfresh : containsKey acc k = false := hfresh (k, v) (List.mem_cons_self _ _)
          have hfresh2 : ∀ q ∈ tl, containsKey (acc ++ [(k, v)]) q.1 = false := by
            intro q hq
            rw [containsKey_append_single]
            have h1 : containsKey acc q.1 = false := hfresh q (List.mem_cons_of_mem _ hq)
            have h2 : ¬(k = q.1) :=
              keyMem_false k (tl.map Prod.fst) hnodup.1 q.1 (List.mem_map_of_mem _ hq)
            simp [h1, h2]
          simp only [readDictLoop, hkread f1 (bv ++ (btl ++ rest)), hkcoerce,
            hreadv (f1 + 1) (btl ++ rest) hf2.1, dictInsert_fresh acc k v hkfresh,
            hreadtl (f1 + 1) rest (acc ++ [(k, v)]) hf2.2 hfresh2]
          simp
    intro v hf hg
    cases v with
    | none =>
      refine ⟨u32le 0, rfl, by simp [needFuel, u32le], ?_⟩
      intro fuel rest hfuel
      obtain ⟨f, rfl⟩ : ∃ f, fuel = f + 1 := ⟨fuel - 1, by
        simp only [needFuel] at hfuel; omega⟩
      exact readValue_tagNil FM f rest
    | bool b =>
      refine ⟨u32le 1 ++ u32le (if b then 1 else 0), rfl, by cases b <;> simp [needFuel, u32le], ?_⟩
      intro fuel rest hfuel
      obtain ⟨f, rfl⟩ : ∃ f, fuel = f + 1 := ⟨fuel - 1, by
        simp only [needFuel] at hfuel; omega⟩
      exact readValue_tagBool FM f b rest
    | int n =>
      simp only [goodValue, valueOk, Bool.and_eq_true, decide_eq_true_eq] at hg
      by_cases hnarrow : -2147483648 ≤ n ∧ n ≤ 2147483647
      · refine ⟨u32le 2 ++ u32le (n % 4294967296).toNat, ?_, by simp [needFuel, u32le], ?_⟩
        · show writeIntValue n = _
          exact writeIntValue_narrow n hnarrow.1 hnarrow.2
        · intro fuel rest hfuel
          obtain ⟨f, rfl⟩ : ∃ f, fuel = f + 1 := ⟨fuel - 1, by
            simp only [needFuel] at hfuel; omega⟩
          exact readValue_tagIntNarrow FM f n rest hnarrow.1 hnarrow.2
      · refine ⟨u32le 65538 ++ u64le (n % 18446744073709551616).toNat, ?_,
          by simp [needFuel, u32le], ?_⟩
        · show writeIntValue n = _
          exact writeIntValue_wide n hnarrow hg.1 hg.2
        · intro fuel rest hfuel
          obtain ⟨f, rfl⟩ : ∃ f, fuel = f + 1 := ⟨fuel - 1, by
            simp only [needFuel] at hfuel; omega⟩
          exact readValue_tagIntWide FM f n rest hg.1 hg.2
    | float bits =>
      simp only [goodValue, valueOk, decide_eq_true_eq] at hg
      refine ⟨u32le 65539 ++ u64le bits, rfl, by simp [needFuel, u32le, u64le], ?_⟩
      intro fuel rest hfuel
      obtain ⟨f, rfl⟩ : ∃ f, fuel = f + 1 := ⟨fuel - 1, by
        simp only [needFuel] at hfuel; omega⟩
      exact readValue_tagFloat FM f bits rest hg
    | str s =>
      simp only [goodValue, valueOk] at hg
      have hs := hg
      simp only [strOk, Bool.and_eq_true, decide_eq_true_eq] at hs
      refine ⟨u32le 4 ++ (u32le s.length ++ s ++ List.replicate ((4 - s.length % 4) % 4) 0),
        ?_, by simp [needFuel, u32le], ?_⟩
      · show writeStrValue s = _
        exact writeStrValue_ok s hs.2
      · intro fuel rest hfuel
        obtain ⟨f, rfl⟩ : ∃ f, fuel = f + 1 := ⟨fuel - 1, by
          simp only [needFuel] at hfuel; omega⟩
        exact readValue_tagStr FM f s rest hs.1 hs.2
    | list xs =>
      simp only [goodValue, valueOk, Bool.and_eq_true, decide_eq_true_eq] at hg
      rw [needFuel] at hf
      obtain ⟨body, hbody, hblen, hbread⟩ := listAux xs (by omega) hg.2
      refine ⟨u32le 19 ++ u32le xs.length ++ body, ?_, ?_, ?_⟩
      · simp only [writeValue, packU32, if_pos hg.1, hbody]
      · rw [needFuel]
        simp only [List.length_append, length_u32le]
        omega
      · intro fuel rest hfuel
        rw [needFuel] at hfuel
        obtain ⟨f, rfl⟩ : ∃ f, fuel = f + 1 := ⟨fuel - 1, by omega⟩
        rw [List.append_assoc, List.append_assoc, ← List.append_assoc (u32le 19),
          readValue_tagList FM f xs.length (body ++ rest) hg.1]
        have := hbread f rest [] (by omega)
        simpa using this
    | dict es =>
      simp only [goodValue, valueOk, Bool.and_eq_true, Bool.not_eq_true', Bool.not_true,
        Bool.false_or, decide_eq_true_eq] at hg
      obtain ⟨⟨⟨⟨⟨hlen, hxyb⟩, hnodup⟩, hstr⟩, hhex⟩, hvals⟩ := hg
      have hxy : ¬(es.length = 2 ∧ containsKey es (asciiOf "x") = true ∧
          containsKey es (asciiOf "y") = true) := by
        intro hc
        rw [hc.1, hc.2.1, hc.2.2] at hxyb
        simp at hxyb
      rw [needFuel] at hf
      obtain ⟨body, hbody, hblen, hbread⟩ := dictAux es (by omega) hvals hstr hhex hnodup
      refine ⟨u32le 18 ++ u32le es.length ++ body, ?_, ?_, ?_⟩
      · simp only [writeValue, if_neg hxy, packU32, if_pos hlen, hbody]
      · rw [needFuel]
        simp only [List.length_append, length_u32le]
        omega
      · intro fuel rest hfuel
        rw [needFuel] at hfuel
        obtain ⟨f, rfl⟩ : ∃ f, fuel = f + 1 := ⟨fuel - 1, by omega⟩
        rw [List.append_assoc, List.append_assoc, ← List.append_assoc (u32le 18),
          readValue_tagDict FM f es.length (body ++ rest) hlen]
        have := hbread f rest [] (by omega) (by intro p _; rfl)
        simpa using this
    | other =>
      rw [goodValue, valueOk] at hg
      cases hg

/-- Full-pipeline round trip: `decode (serialize v) = v` for every value of
the amended family whose encoding fits the `u32` header. -/
theorem roundTrip_good (FM : FloatModel) (v : PyValue)
    (hg : goodValue v = true) (hfit : encFits FM v = true) :
    roundTrip FM v = some v := by
  obtain ⟨bs, hw, hlen, hread⟩ := write_read_main FM (needFuel v) v le_rfl hg
  have hfit4 : bs.length + 4 < 4294967296 := by
    rw [encFits, hw] at hfit
    simpa using hfit
  have hd : readValue FM (bs.length + 1) bs = .ok (v, []) := by
    have h := hread (bs.length + 1) [] (by omega)
    simpa using h
  simp only [roundTrip, serialize, hw, packU32, if_pos hfit4, decode, readU32_u32le,
    Nat.mod_eq_of_lt hfit4]
  rw [if_neg (by omega)]
  rw [hd]

theorem writeIntValue_ok (n : Int)
    (h1 : -9223372036854775808 ≤ n) (h2 : n ≤ 9223372036854775807) :
    ∃ bs, writeIntValue n = .ok bs := by
  by_cases hnarrow : -2147483648 ≤ n ∧ n ≤ 2147483647
  · exact ⟨_, writeIntValue_narrow n hnarrow.1 hnarrow.2⟩
  · exact ⟨_, writeIntValue_wide n hnarrow h1 h2⟩

/-- Encoder totality on the `encOk` family, by induction on nesting
depth. -/
theorem writeValue_total (FM : FloatModel) :
    ∀ d v, needFuel v ≤ d → encOk v = true → ∃ bs, writeValue FM v = .ok bs := by
  intro d
  induction d with
  | zero =>
    intro v h _
    exact absurd h (by have := needFuel_pos v; omega)
  | succ d ih =>
    have listAux : ∀ xs, needFuelL xs ≤ d → encOkL xs = true →
        ∃ body, writeList FM xs = .ok body := by
      intro xs
      induction xs with
      | nil => intro _ _; exact ⟨[], rfl⟩
      | cons v tl ihtl =>
        intro hfl hok
        rw [needFuelL, Nat.max_le] at hfl
        simp only [encOkL, Bool.and_eq_true] at hok
        obtain ⟨bv, hbv⟩ := ih v hfl.1 hok.1
        obtain ⟨btl, hbtl⟩ := ihtl hfl.2 hok.2
        exact ⟨bv ++ btl, by simp only [writeList, hbv, hbtl]⟩
    have dictAux : ∀ es, needFuelD es ≤ d → encOkD es = true →
        es.all (fun p => hexKeyParses p.1 && decide (p.1.length < 4294967296)) = true →
        ∃ body, writeDict FM es = .ok body := by
      intro es
      induction es with
      | nil => intro _ _ _; exact ⟨[], rfl⟩
      | cons p tl ihtl =>
        obtain ⟨k, v⟩ := p
        intro hfd hok hkeys
        rw [needFuelD, Nat.max_le] at hfd
        simp only [encOkD, Bool.and_eq_true] at hok
        simp only [List.all_cons, Bool.and_eq_true, decide_eq_true_eq] at hkeys
        obtain ⟨bv, hbv⟩ := ih v hfd.1 hok.1
        obtain ⟨btl, hbtl⟩ := ihtl hfd.2 hok.2 (by
          simp only [List.all_eq_true] at hkeys ⊢
          intro p hp
          exact hkeys.2 p hp)
        have hkey : ∃ kb,
            (if k.take 2 = [48, 120] then
              match pyIntBase16 k with
              | some m => writeIntValue m
              | Option.none => .error .badHexKey
            else writeStrValue k) = .ok kb := by
          by_cases hpre : k.take 2 = [48, 120]
          · have hk := hkeys.1.1
            rw [hexKeyParses, if_pos hpre] at hk
            cases hparse : pyIntBase16 k with
            | none => rw [hparse] at hk; exact absurd hk (by simp)
            | some m =>
              rw [hparse] at hk
              simp only [Bool.and_eq_true, decide_eq_true_eq] at hk
              obtain ⟨bm, hbm⟩ := writeIntValue_ok m hk.1 hk.2
              exact ⟨bm, by simp only [if_pos hpre, hparse, hbm]⟩
          · exact ⟨_, by rw [if_neg hpre]; exact writeStrValue_ok k hkeys.1.2⟩
        obtain ⟨kb, hkb⟩ := hkey
        exact ⟨kb ++ bv ++ btl, by simp only [writeDict, hkb, hbv, hbtl]⟩
    intro v hf hok
    cases v with
    | none => exact ⟨_, rfl⟩
    | bool b => exact ⟨_, rfl⟩
    | int n =>
      simp only [encOk, Bool.and_eq_true, decide_eq_true_eq] at hok
      obtain ⟨bs, hbs⟩ := writeIntValue_ok n hok.1 hok.2
      exact ⟨bs, hbs⟩
    | float bits => exact ⟨_, rfl⟩
    | str s =>
      simp only [encOk, decide_eq_true_eq] at hok
      exact ⟨_, writeStrValue_ok s hok⟩
    | list xs =>
      simp only [encOk, Bool.and_eq_true, decide_eq_true_eq] at hok
      rw [needFuel] at hf
      obtain ⟨body, hbody⟩ := listAux xs (by omega) hok.2
      exact ⟨u32le 19 ++ u32le xs.length ++ body,
        by simp only [writeValue, packU32, if_pos hok.1, hbody]⟩
    | dict es =>
      simp only [encOk, Bool.and_eq_true, Bool.not_eq_true', decide_eq_true_eq] at hok
      obtain ⟨⟨⟨hlen, hxyb⟩, hkeys⟩, hvals⟩ := hok
      have hxy : ¬(es.length = 2 ∧ containsKey es (asciiOf "x") = true ∧
          containsKey es (asciiOf "y") = true) := by
        intro hc
        rw [hc.1, hc.2.1, hc.2.2] at hxyb
        simp at hxyb
      rw [needFuel] at hf
      obtain ⟨body, hbody⟩ := dictAux es (by omega) hvals hkeys
      exact ⟨u32le 18 ++ u32le es.length ++ body,
        by simp only [writeValue, if_neg hxy, packU32, if_pos hlen, hbody]⟩
    | other =>
      rw [encOk] at hok
      cases hok

/-! ## Characterization of the hex re-expression and of short reads -/

/-- An uppercase hexadecimal digit character (`0-9`, `A-F`). -/
def isHexUpperDigit (c : Nat) : Bool := (48 ≤ c && c ≤ 57) || (65 ≤ c && c ≤ 70)

theorem isHexUpperDigit_hexDigitUpper (d : Nat) (h : d < 16) :
    isHexUpperDigit (hexDigitUpper d) = true := by
  unfold hexDigitUpper isHexUpperDigit
  split <;> simp <;> omega

theorem natHexUpperAux_digits :
    ∀ fuel n c, c ∈ natHexUpperAux fuel n → isHexUpperDigit c = true := by
  intro fuel
  induction fuel with
  | zero => intro n c hc; cases hc
  | succ fuel ihf =>
    intro n c hc
    rw [natHexUpperAux] at hc
    by_cases hn : n = 0
    · rw [if_pos hn] at hc; cases hc
    · rw [if_neg hn, List.mem_append] at hc
      cases hc with
      | inl h => exact ihf _ c h
      | inr h =>
        rw [List.mem_singleton] at h
        subst h
        exact isHexUpperDigit_hexDigitUpper _ (Nat.mod_lt n (by omega))

theorem natHexUpper_digits (n : Nat) : ∀ c ∈ natHexUpper n, isHexUpperDigit c = true := by
  intro c hc
  rw [natHexUpper] at hc
  by_cases hn : n = 0
  · rw [if_pos hn, List.mem_singleton] at hc
    subst hc; rfl
  · rw [if_neg hn] at hc
    exact natHexUpperAux_digits n n c hc

theorem natHexUpperAux_length_le :
    ∀ fuel k n, n < 16 ^ k → (natHexUpperAux fuel n).length ≤ k := by
  intro fuel
  induction fuel with
  | zero => intro k n _; simp [natHexUpperAux]
  | succ fuel ihf =>
    intro k n hn
    rw [natHexUpperAux]
    by_cases h0 : n = 0
    · simp [h0]
    · rw [if_neg h0]
      have hk : 1 ≤ k := by
        rcases Nat.eq_zero_or_pos k with hk0 | hk0
        · subst hk0; simp at hn; omega
        · exact hk0
      have hdiv : n / 16 < 16 ^ (k - 1) := by
        have : 16 ^ k = 16 ^ (k - 1) * 16 := by
          rw [← Nat.pow_succ]
          congr 1
          omega
        omega
      have := ihf (k - 1) (n / 16) hdiv
      simp only [List.length_append, List.length_singleton]
      omega

theorem natHexUpperAux_length_gt :
    ∀ fuel n k, n < 16 ^ fuel → 16 ^ k ≤ n → k < (natHexUpperAux fuel n).length := by
  intro fuel
  induction fuel with
  | zero =>
    intro n k hfuel hk
    have : 1 ≤ 16 ^ k := Nat.one_le_pow _ _ (by omega)
    simp at hfuel
    omega
  | succ fuel ihf =>
    intro n k hfuel hk
    have h0 : n ≠ 0 := by
      have : 1 ≤ 16 ^ k := Nat.one_le_pow _ _ (by omega)
      omega
    rw [natHexUpperAux, if_neg h0]
    simp only [List.length_append, List.length_singleton]
    cases k with
    | zero => omega
    | succ j =>
      have hdiv1 : n / 16 < 16 ^ fuel := by
        have : 16 ^ (fuel + 1) = 16 ^ fuel * 16 := Nat.pow_succ 16 fuel
        omega
      have hdiv2 : 16 ^ j ≤ n / 16 := by
        have : 16 ^ (j + 1) = 16 ^ j * 16 := Nat.pow_succ 16 j
        omega
      have := ihf (n / 16) j hdiv1 hdiv2
      omega

theorem natHexUpper_length_pos (n : Nat) : 1 ≤ (natHexUpper n).length := by
  rw [natHexUpper]
  by_cases hz : n = 0
  · simp [hz]
  · rw [if_neg hz]
    obtain ⟨f, rfl⟩ : ∃ f, n = f + 1 := ⟨n - 1, by omega⟩
    rw [natHexUpperAux, if_neg hz]
    simp

theorem pyFormat08X_nonneg_shape (m : Int) (h0 : 0 ≤ m) (h32 : m < 4294967296) :
    (pyFormat08X m).length = 8 ∧ ∀ c ∈ pyFormat08X m, isHexUpperDigit c = true := by
  rw [pyFormat08X, if_neg (by omega)]
  have hlen : (natHexUpper m.toNat).length ≤ 8 := by
    rw [natHexUpper]
    by_cases hz : m.toNat = 0
    · simp [hz]
    · rw [if_neg hz]
      exact natHexUpperAux_length_le m.toNat 8 m.toNat (by omega)
  have hpos : 1 ≤ (natHexUpper m.toNat).length := natHexUpper_length_pos m.toNat
  constructor
  · simp only [List.length_append, List.length_replicate]
    omega
  · intro c hc
    rw [List.mem_append] at hc
    cases hc with
    | inl h => rw [List.eq_of_mem_replicate h]; rfl
    | inr h => exact natHexUpper_digits m.toNat c h

theorem pyFormat08X_big_long (m : Int) (h : 4294967296 ≤ m) :
    8 < (pyFormat08X m).length := by
  rw [pyFormat08X, if_neg (by omega)]
  have h8 : 16 ^ 8 ≤ m.toNat := by omega
  have hgt : 8 < (natHexUpper m.toNat).length := by
    rw [natHexUpper, if_neg (by omega)]
    exact natHexUpperAux_length_gt m.toNat m.toNat 8
      (Nat.lt_pow_self (by omega) _) h8
  simp only [List.length_append, List.length_replicate]
  omega

theorem pyFormat08X_neg_shape (m : Int) (hneg : m < 0) (hsmall : -268435456 < m) :
    (pyFormat08X m).length = 8 ∧ (pyFormat08X m).take 1 = [45] := by
  rw [pyFormat08X, if_pos hneg]
  have hlen : (natHexUpper (-m).toNat).length ≤ 7 := by
    rw [natHexUpper, if_neg (by omega)]
    exact natHexUpperAux_length_le (-m).toNat 7 (-m).toNat (by omega)
  have hpos : 1 ≤ (natHexUpper (-m).toNat).length := natHexUpper_length_pos (-m).toNat
  refine ⟨?_, rfl⟩
  simp only [List.length_cons, List.length_append, List.length_replicate]
  omega

theorem readU32_short (l : List Nat) (h : l.length < 4) :
    readU32 l = .error .outOfBounds := by
  rcases l with _ | ⟨a, _ | ⟨b, _ | ⟨c, _ | ⟨e, tl⟩⟩⟩⟩
  · rfl
  · rfl
  · rfl
  · rfl
  · simp only [List.length_cons] at h
    omega

theorem readI32_short (l : List Nat) (h : l.length < 4) :
    readI32 l = .error .outOfBounds := by
  rcases l with _ | ⟨a, _ | ⟨b, _ | ⟨c, _ | ⟨e, tl⟩⟩⟩⟩
  · rfl
  · rfl
  · rfl
  · rfl
  · simp only [List.length_cons] at h
    omega

theorem readI64_short (l : List Nat) (h : l.length < 8) :
    readI64 l = .error .outOfBounds := by
  rcases l with _ | ⟨a, _ | ⟨b, _ | ⟨c, _ | ⟨e, _ | ⟨g, _ | ⟨i, _ | ⟨j, _ | ⟨k, tl⟩⟩⟩⟩⟩⟩⟩⟩
  all_goals first
  | rfl
  | (simp only [List.length_cons] at h; omega)

theorem readF64bits_short (l : List Nat) (h : l.length < 8) :
    readF64bits l = .error .outOfBounds := by
  rcases l with _ | ⟨a, _ | ⟨b, _ | ⟨c, _ | ⟨e, _ | ⟨g, _ | ⟨i, _ | ⟨j, _ | ⟨k, tl⟩⟩⟩⟩⟩⟩⟩⟩
  all_goals first
  | rfl
  | (simp only [List.length_cons] at h; omega)

/-- Decoding a one-entry Mapping whose key is a narrow Integer `m` and
whose value is Null: the decoder re-expresses the key through
`f"0x{m:08X}"`. -/
theorem readValue_intKeyDict (FM : FloatModel) (f : Nat) (m : Int)
    (h1 : -2147483648 ≤ m) (h2 : m ≤ 2147483647) :
    readValue FM (f + 1 + 1)
        ((u32le 18 ++ u32le 1) ++
          ((u32le 2 ++ u32le (m % 4294967296).toNat) ++ (u32le 0 ++ []))) =
      .ok (.dict [(hexKeyString m, .none)], []) := by
  rw [readValue_tagDict FM (f + 1) 1 _ (by norm_num)]
  simp only [readDictLoop, readValue_tagIntNarrow FM f m _ h1 h2, dictKeyOf,
    readValue_tagNil FM f, dictInsert, containsKey]
  simp

/-! ## The claims -/

/-- C1, counterexample.  The claim as stated quantifies over every value
from the supported variants without the two-key `"x"`/`"y"` shape
(`claimValue`), but the Mapping `{"0x1": None}` is in that family and does
not round-trip: the encoder sees a key starting with `"0x"`, writes it as
the Integer `1`, and the decoder re-expresses it as the canonical string
`"0x00000001" ≠ "0x1"`. -/
theorem c1_counterexample :
    claimValue (PyValue.dict [(asciiOf "0x1", PyValue.none)]) = true ∧
    roundTrip FM0 (PyValue.dict [(asciiOf "0x1", PyValue.none)]) =
      some (PyValue.dict [(asciiOf "0x00000001", PyValue.none)]) ∧
    PyValue.dict [(asciiOf "0x00000001", PyValue.none)] ≠
      PyValue.dict [(asciiOf "0x1", PyValue.none)] := by
  refine ⟨rfl, rfl, ?_⟩
  simp [asciiOf]

/-- C1, amended.  `decode (encode v) = v` for every value built only from
Null, Boolean, Integer (i64), Real, Text, Sequence and Mapping without the
ambiguous `"x"`/`"y"` shape, provided additionally that every mapping key
starting with `"0x"` is the canonical re-expression of its parsed value
(`goodValue`), and that the encoding fits the 32-bit header
(`encFits`). -/
theorem c1_roundtrip (FM : FloatModel) (v : PyValue)
    (hg : goodValue v = true) (hfit : encFits FM v = true) :
    roundTrip FM v = some v :=
  roundTrip_good FM v hg hfit

set_option maxRecDepth 8000 in
/-- Concrete witness for `c1_roundtrip`, exercising the narrow/wide
integer boundaries named by the claim. -/
theorem c1_roundtrip_witness :
    goodValue (PyValue.list [.int 0, .int 2147483647, .int (-2147483648),
      .int 2147483648, .int (-2147483649), .int 9223372036854775807,
      .int (-9223372036854775808), .str (asciiOf "hi"), .bool true, .none,
      .float 4614256656552045848,
      .dict [(asciiOf "level", .int 3), (asciiOf "0x00000001", .none)]]) = true ∧
    encFits FM0 (PyValue.list [.int 0, .int 2147483647, .int (-2147483648),
      .int 2147483648, .int (-2147483649), .int 9223372036854775807,
      .int (-9223372036854775808), .str (asciiOf "hi"), .bool true, .none,
      .float 4614256656552045848,
      .dict [(asciiOf "level", .int 3), (asciiOf "0x00000001", .none)]]) = true ∧
    roundTrip FM0 (PyValue.list [.int 0, .int 2147483647, .int (-2147483648),
      .int 2147483648, .int (-2147483649), .int 9223372036854775807,
      .int (-9223372036854775808), .str (asciiOf "hi"), .bool true, .none,
      .float 4614256656552045848,
      .dict [(asciiOf "level", .int 3), (asciiOf "0x00000001", .none)]]) =
      some (PyValue.list [.int 0, .int 2147483647, .int (-2147483648),
        .int 2147483648, .int (-2147483649), .int 9223372036854775807,
        .int (-9223372036854775808), .str (asciiOf "hi"), .bool true, .none,
        .float 4614256656552045848,
        .dict [(asciiOf "level", .int 3), (asciiOf "0x00000001", .none)]]) :=
  ⟨rfl, rfl, c1_roundtrip FM0 _ rfl rfl⟩

/-- C2, counterexample.  A buffer declaring a Text payload of 10 bytes
with only 2 bytes remaining decodes *successfully* to the truncated
string `"hi"` — `read_string` slices, and a Python slice never raises —
where the claim demands an OutOfBounds failure. -/
theorem c2_counterexample :
    decode FM0 ([20, 0, 0, 0] ++ ([4, 0, 0, 0] ++ ([10, 0, 0, 0] ++ [104, 105]))) =
      .ok (.str (asciiOf "hi")) := rfl

/-- C2, amended.  Every *fixed-width* cursor read (`u32`, `i32`, `i64`,
`f32`, `f64`) fails with OutOfBounds when fewer bytes remain than it
needs (and, the reader being modelled by the untouched remaining-byte
list, no partial consumption occurs); but `read_string` does not bounds
check: a buffer declaring a Text payload longer than the remaining bytes
decodes successfully to the truncated string. -/
theorem c2_amended :
    (∀ l : List Nat, l.length < 4 →
      readU32 l = .error .outOfBounds ∧ readI32 l = .error .outOfBounds ∧
      readF32bits l = .error .outOfBounds) ∧
    (∀ l : List Nat, l.length < 8 →
      readI64 l = .error .outOfBounds ∧ readF64bits l = .error .outOfBounds) ∧
    decode FM0 ([20, 0, 0, 0] ++ ([4, 0, 0, 0] ++ ([10, 0, 0, 0] ++ [104, 105]))) =
      .ok (.str (asciiOf "hi")) := by
  refine ⟨?_, ?_, rfl⟩
  · intro l h
    exact ⟨readU32_short l h, readI32_short l h, readU32_short l h⟩
  · intro l h
    exact ⟨readI64_short l h, readF64bits_short l h⟩

theorem c2_amended_witness :
    ([86, 87] : List Nat).length < 4 ∧ readU32 [86, 87] = .error .outOfBounds ∧
    ([0, 1, 2, 3] : List Nat).length < 8 ∧ readI64 [0, 1, 2, 3] = .error .outOfBounds :=
  ⟨by decide, (c2_amended.1 [86, 87] (by decide)).1, by decide,
    (c2_amended.2.1 [0, 1, 2, 3] (by decide)).1⟩

/-- C3, counterexample.  The tag bytes `[2, 0, 2, 0]` carry base type 2
(Integer) and flag `2`, whose bit 0 is clear; the claim predicts an `i32`
read, so the 4-byte payload `[5, 0, 0, 0]` would decode to the Integer 5
(as the second conjunct shows it does under flag 0) — but the decoder
tests `flag == 0`, takes the `i64` path, runs out of bytes and fails. -/
theorem c3_counterexample :
    decode FM0 ([12, 0, 0, 0] ++ ([2, 0, 2, 0] ++ [5, 0, 0, 0])) =
      .error .outOfBounds ∧
    decode FM0 ([12, 0, 0, 0] ++ ([2, 0, 0, 0] ++ [5, 0, 0, 0])) = .ok (.int 5) :=
  ⟨rfl, rfl⟩

/-- C3, amended.  No flag value is rejected, but the dispatch is on the
*whole* 16-bit flag field, not on bit 0: for every Integer tag the decoder
reads an `i32` iff `flag = 0` (else an `i64`), and for every Real tag an
`f32` iff `flag = 0` (else an `f64`). -/
theorem c3_flag_dispatch (FM : FloatModel) (f flag : Nat) (payload : List Nat)
    (hflag : flag < 65536) :
    (readValue FM (f + 1) (u32le (2 + 65536 * flag) ++ payload) =
      (if flag = 0 then
        match readI32 payload with
        | .error e => .error e
        | .ok (n, l) => .ok (.int n, l)
      else
        match readI64 payload with
        | .error e => .error e
        | .ok (n, l) => .ok (.int n, l))) ∧
    (readValue FM (f + 1) (u32le (3 + 65536 * flag) ++ payload) =
      (if flag = 0 then
        match readF32bits payload with
        | .error e => .error e
        | .ok (bits, l) => .ok (.float (FM.f32ToF64 bits), l)
      else
        match readF64bits payload with
        | .error e => .error e
        | .ok (bits, l) => .ok (.float bits, l))) := by
  constructor
  · rw [readValue_succ]
    unfold readValueGo
    rw [readU32_u32le]
    have e2 : (2 + 65536 * flag) % 4294967296 % 65536 = 2 := by omega
    have e3 : (2 + 65536 * flag) % 4294967296 / 65536 = flag := by omega
    simp only [e2, e3]
    norm_num
  · rw [readValue_succ]
    unfold readValueGo
    rw [readU32_u32le]
    have e2 : (3 + 65536 * flag) % 4294967296 % 65536 = 3 := by omega
    have e3 : (3 + 65536 * flag) % 4294967296 / 65536 = flag := by omega
    simp only [e2, e3]
    norm_num

theorem c3_flag_dispatch_witness :
    (2 : Nat) < 65536 ∧
    readValue FM0 1 (u32le (2 + 65536 * 2) ++ [5, 0, 0, 0]) =
      (match readI64 [5, 0, 0, 0] with
      | .error e => .error e
      | .ok (n, l) => .ok (.int n, l)) := by
  refine ⟨by decide, ?_⟩
  have h := (c3_flag_dispatch FM0 0 2 [5, 0, 0, 0] (by decide)).1
  simpa using h

/-- C4, counterexample.  A Mapping entry whose key decodes to the Integer
`-1` is re-expressed as `"0x-0000001"` — Python's `format(-1, '08X')`
zero-pads to total width 8 *including the sign* and never truncates to 32
bits — not as the claimed `"0xFFFFFFFF"`. -/
theorem c4_counterexample :
    decode FM0 ([16, 0, 0, 0] ++ ([18, 0, 0, 0] ++ ([1, 0, 0, 0] ++ ([2, 0, 0, 0] ++
        ([255, 255, 255, 255] ++ [0, 0, 0, 0]))))) =
      .ok (.dict [(asciiOf "0x-0000001", .none)]) ∧
    asciiOf "0x-0000001" ≠ asciiOf "0xFFFFFFFF" :=
  ⟨rfl, by decide⟩

/-- C4, amended.  An Integer mapping key `m` is re-expressed as `"0x"`
followed by `format(m, '08X')`: for `0 ≤ m < 2^32` that is exactly 8
uppercase hex digits of `m` itself (no truncation is ever applied); for
`m ≥ 2^32` it is *more* than 8 digits; for negative `m` the sign is
emitted and counts toward the width 8.  The last conjunct shows the
decoder producing exactly this key for a wire Mapping with a narrow
Integer key. -/
theorem c4_hex_key (m : Int) :
    dictKeyOf (.int m) = .ok (48 :: 120 :: pyFormat08X m) ∧
    (0 ≤ m → m < 4294967296 →
      (pyFormat08X m).length = 8 ∧ ∀ c ∈ pyFormat08X m, isHexUpperDigit c = true) ∧
    (4294967296 ≤ m → 8 < (pyFormat08X m).length) ∧
    (m < 0 → -268435456 < m →
      (pyFormat08X m).length = 8 ∧ (pyFormat08X m).take 1 = [45]) ∧
    (∀ f : Nat, -2147483648 ≤ m → m ≤ 2147483647 →
      readValue FM0 (f + 1 + 1)
          ((u32le 18 ++ u32le 1) ++
            ((u32le 2 ++ u32le (m % 4294967296).toNat) ++ (u32le 0 ++ []))) =
        .ok (.dict [(48 :: 120 :: pyFormat08X m, .none)], [])) := by
  refine ⟨rfl, pyFormat08X_nonneg_shape m, pyFormat08X_big_long m,
    pyFormat08X_neg_shape m, ?_⟩
  intro f h1 h2
  exact readValue_intKeyDict FM0 f m h1 h2

theorem c4_hex_key_witness :
    dictKeyOf (.int (-1)) = .ok (asciiOf "0x-0000001") ∧
    (pyFormat08X (-1 : Int)).length = 8 ∧ (pyFormat08X (-1 : Int)).take 1 = [45] ∧
    readValue FM0 2
        ((u32le 18 ++ u32le 1) ++
          ((u32le 2 ++ u32le ((-1 : Int) % 4294967296).toNat) ++ (u32le 0 ++ []))) =
      .ok (.dict [(48 :: 120 :: pyFormat08X (-1), .none)], []) := by
  refine ⟨(c4_hex_key (-1)).1, ((c4_hex_key (-1)).2.2.2.1 (by decide) (by decide)).1,
    ((c4_hex_key (-1)).2.2.2.1 (by decide) (by decide)).2,
    (c4_hex_key (-1)).2.2.2.2 0 (by decide) (by decide)⟩

/-- C5, counterexample.  The key `"0x1"` does not match `"0x"` + exactly
8 hex digits (its length is 3, not 10), so the claim demands it be written
as a Text Value (tag 4) — but the encoder only tests `startswith("0x")`
and writes it as the Integer 1: the key record in the output starts with
tag bytes `[2, 0, 0, 0]`. -/
theorem c5_counterexample :
    writeValue FM0 (PyValue.dict [(asciiOf "0x1", PyValue.none)]) =
      .ok ([18, 0, 0, 0] ++ ([1, 0, 0, 0] ++ ([2, 0, 0, 0] ++ ([1, 0, 0, 0] ++ [0, 0, 0, 0])))) ∧
    ¬((asciiOf "0x1").length = 10) := by
  refine ⟨rfl, by decide⟩

/-- C5, amended.  For a general-case Mapping entry the encoder writes the
key as an Integer (parsed by `int(k, 16)`) iff the key merely *starts
with* `"0x"`; a `"0x"`-prefixed key that fails to parse aborts the encode
with a ValueError, and only keys not starting with `"0x"` are written as
Text — the "exactly 8 hex digits" pattern plays no role. -/
theorem c5_key_branch (FM : FloatModel) (k : List Nat) (v : PyValue) :
    (k.take 2 = [48, 120] → pyIntBase16 k = Option.none →
      writeValue FM (.dict [(k, v)]) = .error .badHexKey) ∧
    (∀ m kb vb, k.take 2 = [48, 120] → pyIntBase16 k = some m →
      writeIntValue m = .ok kb → writeValue FM v = .ok vb →
      writeValue FM (.dict [(k, v)]) = .ok (u32le 18 ++ u32le 1 ++ (kb ++ vb))) ∧
    (∀ kb vb, ¬(k.take 2 = [48, 120]) →
      writeStrValue k = .ok kb → writeValue FM v = .ok vb →
      writeValue FM (.dict [(k, v)]) = .ok (u32le 18 ++ u32le 1 ++ (kb ++ vb))) := by
  have hxy : ¬(([(k, v)] : List (List Nat × PyValue)).length = 2 ∧
      containsKey [(k, v)] (asciiOf "x") = true ∧
      containsKey [(k, v)] (asciiOf "y") = true) := by
    simp
  refine ⟨?_, ?_, ?_⟩
  · intro hpre hparse
    simp only [writeValue, if_neg hxy, packU32, writeDict, if_pos hpre, hparse]
    norm_num
  · intro m kb vb hpre hparse hkb hvb
    simp only [writeValue, if_neg hxy, packU32, writeDict, if_pos hpre, hparse, hkb, hvb]
    norm_num
  · intro kb vb hpre hkb hvb
    simp only [writeValue, if_neg hxy, packU32, writeDict, if_neg hpre, hkb, hvb]
    norm_num

theorem c5_key_branch_witness :
    (asciiOf "0xAb").take 2 = [48, 120] ∧ pyIntBase16 (asciiOf "0xAb") = some 171 ∧
    writeIntValue 171 = .ok (u32le 2 ++ u32le 171) ∧
    writeValue FM0 PyValue.none = .ok (u32le 0) ∧
    writeValue FM0 (PyValue.dict [(asciiOf "0xAb", PyValue.none)]) =
      .ok (u32le 18 ++ u32le 1 ++ ((u32le 2 ++ u32le 171) ++ u32le 0)) :=
  ⟨rfl, rfl, rfl, rfl,
    (c5_key_branch FM0 (asciiOf "0xAb") PyValue.none).2.1 171 (u32le 2 ++ u32le 171)
      (u32le 0) rfl rfl rfl rfl⟩

/-- C6, counterexample.  The Mapping `{"0xZ": None}` is built exclusively
from supported variants (it is even in the round-trip family
`claimValue`), yet `encode` fails: `"0xZ"` starts with `"0x"`, is fed to
`int(k, 16)`, and the resulting ValueError aborts the encode — not an
UnsupportedValueShape, and not a success. -/
theorem c6_counterexample :
    claimValue (PyValue.dict [(asciiOf "0xZ", PyValue.none)]) = true ∧
    serialize FM0 (PyValue.dict [(asciiOf "0xZ", PyValue.none)]) = .error .badHexKey :=
  ⟨rfl, rfl⟩

/-- C6, amended.  `encode` succeeds for every supported-variant value
whose `"0x"`-prefixed mapping keys parse into `i64` range, which contains
no ambiguous two-key `"x"`/`"y"` mapping (`encOk`), and whose encoding
fits the 32-bit header (`encFits`); a value of any other runtime shape
fails with UnsupportedValueShape. -/
theorem c6_encode_total (FM : FloatModel) (v : PyValue) :
    (encOk v = true → encFits FM v = true → ∃ buf, serialize FM v = .ok buf) ∧
    serialize FM .other = .error .unsupportedShape := by
  refine ⟨?_, rfl⟩
  intro hok hfit
  obtain ⟨bs, hbs⟩ := writeValue_total FM (needFuel v) v le_rfl hok
  rw [encFits, hbs] at hfit
  simp only [decide_eq_true_eq] at hfit
  refine ⟨u32le (bs.length + 4) ++ bs, ?_⟩
  simp only [serialize, hbs, packU32, if_pos hfit]

theorem c6_encode_total_witness :
    encOk (PyValue.dict [(asciiOf "0x00000001", PyValue.int 5),
      (asciiOf "money", PyValue.float 7)]) = true ∧
    encFits FM0 (PyValue.dict [(asciiOf "0x00000001", PyValue.int 5),
      (asciiOf "money", PyValue.float 7)]) = true ∧
    (∃ buf, serialize FM0 (PyValue.dict [(asciiOf "0x00000001", PyValue.int 5),
      (asciiOf "money", PyValue.float 7)]) = .ok buf) :=
  ⟨rfl, rfl, (c6_encode_total FM0 _).1 rfl rfl⟩

/-- C7, counterexample.  A wire Mapping whose key decodes to the Boolean
`True` does *not* abort with InvalidKeyType: Python's `bool` is a
subclass of `int`, so the `isinstance(key_val, int)` branch fires and the
key becomes `"0x00000001"`. -/
theorem c7_counterexample :
    decode FM0 ([20, 0, 0, 0] ++ ([18, 0, 0, 0] ++ ([1, 0, 0, 0] ++ ([1, 0, 0, 0] ++
        ([1, 0, 0, 0] ++ [0, 0, 0, 0]))))) =
      .ok (.dict [(asciiOf "0x00000001", PyValue.none)]) := rfl

/-- C7, amended.  Complete case analysis of the mapping-key coercion:
Text keys pass through, Integer *and Boolean* keys are re-expressed as
hex strings (bool being an int subclass, `True`/`False` become
`"0x00000001"`/`"0x00000000"`), and every other key shape (Null, Real,
Sequence, Mapping, placeholder-free unknowns) raises InvalidKeyType; a
concrete decode with a Real key shows the failure is fatal for the whole
decode, one with a Boolean key shows the non-failure. -/
theorem c7_key_types :
    (∀ s, dictKeyOf (.str s) = .ok s) ∧
    (∀ b, dictKeyOf (.bool b) = .ok (hexKeyString (if b then 1 else 0))) ∧
    (∀ m, dictKeyOf (.int m) = .ok (hexKeyString m)) ∧
    dictKeyOf .none = .error .invalidKeyType ∧
    (∀ bits, dictKeyOf (.float bits) = .error .invalidKeyType) ∧
    (∀ xs, dictKeyOf (.list xs) = .error .invalidKeyType) ∧
    (∀ es, dictKeyOf (.dict es) = .error .invalidKeyType) ∧
    decode FM0 ([24, 0, 0, 0] ++ ([18, 0, 0, 0] ++ ([1, 0, 0, 0] ++ ([3, 0, 1, 0] ++
      ([0, 0, 0, 0, 0, 0, 0, 0] ++ [0, 0, 0, 0]))))) = .error .invalidKeyType ∧
    decode FM0 ([20, 0, 0, 0] ++ ([18, 0, 0, 0] ++ ([1, 0, 0, 0] ++ ([1, 0, 0, 0] ++
      ([1, 0, 0, 0] ++ [0, 0, 0, 0]))))) =
      .ok (.dict [(asciiOf "0x00000001", PyValue.none)]) :=
  ⟨fun _ => rfl, fun _ => rfl, fun _ => rfl, rfl, fun _ => rfl, fun _ => rfl,
    fun _ => rfl, rfl, rfl⟩

/-- C8, confirmed.  The encoder writes the narrow form (tag `INT`, flag 0,
`i32`) iff `-2^31 ≤ v ≤ 2^31 - 1` and otherwise the wide form (tag
`INT | 1<<16`, `i64`); in both cases the decoder reads the emitted bytes
back to exactly `v`, consuming exactly the emitted bytes. -/
theorem c8_integer_forms (FM : FloatModel) (v : Int)
    (h1 : -9223372036854775808 ≤ v) (h2 : v ≤ 9223372036854775807) :
    (writeValue FM (.int v) =
      if -2147483648 ≤ v ∧ v ≤ 2147483647 then
        .ok (u32le 2 ++ u32le (v % 4294967296).toNat)
      else
        .ok (u32le 65538 ++ u64le (v % 18446744073709551616).toNat)) ∧
    ∀ f rest bs, writeValue FM (.int v) = .ok bs →
      readValue FM (f + 1) (bs ++ rest) = .ok (.int v, rest) := by
  by_cases hnarrow : -2147483648 ≤ v ∧ v ≤ 2147483647
  · refine ⟨by rw [if_pos hnarrow]; exact writeIntValue_narrow v hnarrow.1 hnarrow.2, ?_⟩
    intro f rest bs hbs
    have hw : writeIntValue v = .ok bs := hbs
    rw [writeIntValue_narrow v hnarrow.1 hnarrow.2] at hw
    injection hw with hw
    subst hw
    exact readValue_tagIntNarrow FM f v rest hnarrow.1 hnarrow.2
  · refine ⟨by rw [if_neg hnarrow]; exact writeIntValue_wide v hnarrow h1 h2, ?_⟩
    intro f rest bs hbs
    have hw : writeIntValue v = .ok bs := hbs
    rw [writeIntValue_wide v hnarrow h1 h2] at hw
    injection hw with hw
    subst hw
    exact readValue_tagIntWide FM f v rest h1 h2

theorem c8_integer_forms_witness :
    writeValue FM0 (.int 2147483648) =
      (if -2147483648 ≤ (2147483648 : Int) ∧ (2147483648 : Int) ≤ 2147483647 then
        .ok (u32le 2 ++ u32le ((2147483648 : Int) % 4294967296).toNat)
      else
        .ok (u32le 65538 ++ u64le ((2147483648 : Int) % 18446744073709551616).toNat)) ∧
    readValue FM0 1 ((u32le 65538 ++ u64le 2147483648) ++ [9, 9]) =
      .ok (.int 2147483648, [9, 9]) :=
  ⟨(c8_integer_forms FM0 2147483648 (by decide) (by decide)).1,
    (c8_integer_forms FM0 2147483648 (by decide) (by decide)).2 0 [9, 9]
      (u32le 65538 ++ u64le 2147483648) rfl⟩

/-- C9, confirmed.  For every unrecognized base type (any 16-bit value
outside `{0,1,2,3,4,5,18,19}`, whatever the flag) the decoder consumes
only the 4 tag bytes, substitutes the placeholder Text
`f"Unsupported type {base}"` for that one element, and an enclosing
Sequence decodes successfully around it. -/
theorem c9_unknown_tag (FM : FloatModel) (f b flag : Nat) (rest : List Nat)
    (hb : b < 65536) (hflag : flag < 65536)
    (hnot : b ∉ ([0, 1, 2, 3, 4, 5, 18, 19] : List Nat)) :
    readValue FM (f + 1) (u32le (b + 65536 * flag) ++ rest) =
      .ok (.str (unsupportedMsg b), rest) ∧
    readValue FM (f + 1 + 1) ((u32le 19 ++ u32le 1) ++ (u32le (b + 65536 * flag) ++ rest)) =
      .ok (.list [.str (unsupportedMsg b)], rest) := by
  simp only [List.mem_cons, not_or] at hnot
  obtain ⟨h0, h1, h2, h3, h4, h5, h18, h19, -⟩ := hnot
  have hpart1 : readValue FM (f + 1) (u32le (b + 65536 * flag) ++ rest) =
      .ok (.str (unsupportedMsg b), rest) := by
    rw [readValue_succ]
    unfold readValueGo
    rw [readU32_u32le]
    have e1 : (b + 65536 * flag) % 4294967296 % 65536 = b := by omega
    have e2 : (b + 65536 * flag) % 4294967296 / 65536 = flag := by omega
    simp only [e1, e2, if_neg h0, if_neg h1, if_neg h2, if_neg h3, if_neg h4, if_neg h5,
      if_neg h18, if_neg h19]
  refine ⟨hpart1, ?_⟩
  rw [readValue_tagList FM (f + 1) 1 _ (by norm_num)]
  simp only [readListLoop, hpart1]
  simp

theorem c9_unknown_tag_witness :
    (12 : Nat) < 65536 ∧ (12 : Nat) ∉ ([0, 1, 2, 3, 4, 5, 18, 19] : List Nat) ∧
    readValue FM0 2 ((u32le 19 ++ u32le 1) ++ (u32le 12 ++ [0, 0, 0, 0])) =
      .ok (.list [.str (unsupportedMsg 12)], [0, 0, 0, 0]) := by
  refine ⟨by decide, by decide, ?_⟩
  have h := (c9_unknown_tag FM0 0 12 0 [0, 0, 0, 0] (by decide) (by decide) (by decide)).2
  simpa using h

/-- C10, confirmed (implicit-claim check).  The wire Mapping below
declares `N = 2` entries: first the Integer key `1` (re-expressed
`"0x00000001"`) bound to `True`, then the Text key `"0x00000001"` bound
to `False`.  Both coerce to the same key string, the later assignment
silently overwrites the earlier one in place, and the decoded Mapping has
1 entry — strictly fewer than the declared 2. -/
theorem c10_duplicate_keys :
    decode FM0 ([48, 0, 0, 0] ++ [18, 0, 0, 0] ++ [2, 0, 0, 0] ++
        ([2, 0, 0, 0] ++ [1, 0, 0, 0]) ++ ([1, 0, 0, 0] ++ [1, 0, 0, 0]) ++
        ([4, 0, 0, 0] ++ [10, 0, 0, 0] ++ asciiOf "0x00000001" ++ [0, 0]) ++
        ([1, 0, 0, 0] ++ [0, 0, 0, 0])) =
      .ok (.dict [(asciiOf "0x00000001", .bool false)]) ∧
    ([(asciiOf "0x00000001", PyValue.bool false)] : List (List Nat × PyValue)).length < 2 :=
  ⟨rfl, by decide⟩

end WebFishing
